import Mathlib

/-!
Verification of the InsightForge report-generation application.

This file shallowly embeds the behavioural core of the repository:

* the report output schema and generation flow
  (src/ai/flows/generate-report.ts: GenerateReportOutputSchema,
  generateReportFlow);
* the history append / clear logic of the page component
  (src/app/page.tsx: onSubmit, handleClearHistory);
* the per-section edit state machine of the report display
  (src/components/ReportDisplay.tsx: handleEditClick, handleSaveClick,
  handleCancelClick);
* the PDF export routine of the page component
  (src/app/page.tsx: handleExportPdf), with the third-party text
  measurement (jsPDF splitTextToSize) abstracted as a parameter and the
  drawing calls recorded as a command trace;
* the browser-local-storage read logic
  (src/hooks/use-local-storage.ts: useLocalStorage's mount effect).

Machine floats: jsPDF reports the A4 page height as 297.0001 mm.  Every
vertical cursor value produced by the export routine is an integer number
of millimetres (start 20; increments 7, 8, 10), so each comparison
`y + c > 297.0001 - 20` over the reals agrees with `y + c > 277` over the
integers; the embedding therefore uses natural numbers with pageHeight
297.
-/

namespace InsightForge

/-- A JSON value, the shape of data a language model can return through
the genkit prompt boundary (src/ai/flows/generate-report.ts). -/
inductive JsonValue where
  | str (s : String)
  | num (n : Int)
  | boolVal (b : Bool)
  | nullVal
  | arr (elems : List JsonValue)
  | obj (fields : List (String × JsonValue))

/-- The six-field report object of GenerateReportOutputSchema
(src/ai/flows/generate-report.ts, lines 19-29): every field is a string
and every field is required. -/
structure Report where
  introduction : String
  history : String
  benefits : String
  challenges : String
  currentTrends : String
  futureScope : String
deriving DecidableEq

/-- The six field names of the report object, in schema order. -/
def reportFieldNames : List String :=
  ["introduction", "history", "benefits", "challenges", "currentTrends", "futureScope"]

/-- The serialized field list of a report, as the client receives it:
exactly the six named string fields. -/
def Report.toFields (r : Report) : List (String × String) :=
  [("introduction", r.introduction), ("history", r.history),
   ("benefits", r.benefits), ("challenges", r.challenges),
   ("currentTrends", r.currentTrends), ("futureScope", r.futureScope)]

/-- Zod string-field extraction: z.string() accepts a JSON value iff it
is a string. -/
def getStr (fields : List (String × JsonValue)) (key : String) : Option String :=
  match fields.lookup key with
  | some (JsonValue.str s) => some s
  | _ => none

/-- Zod parse of the inner report object of GenerateReportOutputSchema:
each of the six keys must be present and map to a string; unknown keys
are stripped (zod object default mode). -/
def parseReportObj (fields : List (String × JsonValue)) : Option Report :=
  match getStr fields "introduction", getStr fields "history",
        getStr fields "benefits", getStr fields "challenges",
        getStr fields "currentTrends", getStr fields "futureScope" with
  | some i, some h, some b, some c, some t, some f =>
    some { introduction := i, history := h, benefits := b,
           challenges := c, currentTrends := t, futureScope := f }
  | _, _, _, _, _, _ => none

/-- Zod parse of the whole GenerateReportOutputSchema value:
an object with a "report" key holding the six-field object. -/
def parseGenerateReportOutput (j : JsonValue) : Option Report :=
  match j with
  | JsonValue.obj fields =>
    match fields.lookup "report" with
    | some (JsonValue.obj inner) => parseReportObj inner
    | _ => none
  | _ => none

/-- The generation flow (generateReportFlow, src/ai/flows/generate-report.ts
lines 55-65): the prompt validates the model output against
GenerateReportOutputSchema; a missing output (`output!` on null) or a
schema-invalid output makes the flow throw.  The model's raw output is a
parameter (`none` when the model produced no structured output). -/
def generateReportFlow (modelOutput : Option JsonValue) : Except String Report :=
  match modelOutput with
  | none => Except.error "output was null"
  | some j =>
    match parseGenerateReportOutput j with
    | some r => Except.ok r
    | none => Except.error "schema validation failed"

/-- Modelled from the spec: the server action wrapping the flow
(src/app/actions.ts, absent from the provided sources; only its caller
onSubmit is present).  Per the spec, "any exception from the model call
or schema validation is caught and surfaced as a generic error message;
no retry, no partial-result handling". -/
def handleGenerateReport (modelOutput : Option JsonValue) : Except String Report :=
  match generateReportFlow modelOutput with
  | Except.ok r => Except.ok r
  | Except.error _ => Except.error "Failed to generate report. Please try again."

/-- History update of onSubmit (src/app/page.tsx lines 59-61): on a
successful generation, `if (!history.includes(topic))
setHistory([topic, ...history])` — the topic is prepended unless already
present (exact string match). -/
def appendTopic (history : List String) (topic : String) : List String :=
  if history.contains topic then history else topic :: history

/-- History clearing of handleClearHistory (src/app/page.tsx line 72):
`setHistory([])`. -/
def clearHistory (_history : List String) : List String := []

/-- One of the six report sections, mirroring the source's
`type ReportSection = keyof Report` (src/components/ReportDisplay.tsx). -/
inductive ReportSection where
  | introduction
  | history
  | benefits
  | challenges
  | currentTrends
  | futureScope
deriving DecidableEq

/-- Field read `report[sectionKey]`. -/
def Report.get (r : Report) : ReportSection → String
  | ReportSection.introduction => r.introduction
  | ReportSection.history => r.history
  | ReportSection.benefits => r.benefits
  | ReportSection.challenges => r.challenges
  | ReportSection.currentTrends => r.currentTrends
  | ReportSection.futureScope => r.futureScope

/-- Computed-key object spread `{ ...report, [sectionKey]: value }`
(src/components/ReportDisplay.tsx, handleSaveClick): replaces the one
named field, keeps the other five. -/
def Report.set (r : Report) (sec : ReportSection) (value : String) : Report :=
  match sec with
  | ReportSection.introduction => { r with introduction := value }
  | ReportSection.history => { r with history := value }
  | ReportSection.benefits => { r with benefits := value }
  | ReportSection.challenges => { r with challenges := value }
  | ReportSection.currentTrends => { r with currentTrends := value }
  | ReportSection.futureScope => { r with futureScope := value }

/-- The component state of ReportDisplay
(src/components/ReportDisplay.tsx): the in-memory editable report, the
section currently being edited (null when viewing), and the shared edit
buffer backing the textarea. -/
structure EditState where
  editableReport : Report
  editingSection : Option ReportSection
  editContent : String
deriving DecidableEq

/-- handleEditClick (src/components/ReportDisplay.tsx): start editing a
section, seeding the edit buffer from the report's current value. -/
def handleEditClick (st : EditState) (sec : ReportSection) : EditState :=
  { st with editingSection := some sec, editContent := st.editableReport.get sec }

/-- The textarea onChange handler `setEditContent(e.target.value)`:
replaces the edit buffer, touching nothing else. -/
def setEditContent (st : EditState) (value : String) : EditState :=
  { st with editContent := value }

/-- A sequence of edit-buffer changes applied in order. -/
def applyEdits (st : EditState) (values : List String) : EditState :=
  values.foldl setEditContent st

/-- handleSaveClick (src/components/ReportDisplay.tsx lines 56-62 and
157-163): if no section is being edited, return early; otherwise commit
the edit buffer into the report via the object spread, notify the parent
with the updated report (second component), and leave editing mode. -/
def handleSaveClick (st : EditState) : EditState × Option Report :=
  match st.editingSection with
  | none => (st, none)
  | some sec =>
    let updatedReport := st.editableReport.set sec st.editContent
    ({ st with editableReport := updatedReport, editingSection := none },
     some updatedReport)

/-- handleCancelClick (src/components/ReportDisplay.tsx lines 64-66 and
165-167): `setEditingSection(null)` — clears the editing flag only. -/
def handleCancelClick (st : EditState) : EditState :=
  { st with editingSection := none }

/-- The fixed section order of the PDF export and the single-page report
display (src/app/page.tsx line 153). -/
def sectionOrder : List ReportSection :=
  [ReportSection.introduction, ReportSection.history, ReportSection.benefits,
   ReportSection.challenges, ReportSection.currentTrends, ReportSection.futureScope]

/-- The human-readable section headings (src/app/page.tsx lines 154-161). -/
def sectionTitle : ReportSection → String
  | ReportSection.introduction => "Introduction"
  | ReportSection.history => "History"
  | ReportSection.benefits => "Benefits"
  | ReportSection.challenges => "Challenges"
  | ReportSection.currentTrends => "Current Trends"
  | ReportSection.futureScope => "Future Scope"

/-- JS word character, the \w class of the regexes in handleExportPdf:
ASCII letters, digits and underscore. -/
def jsWordChar (c : Char) : Bool :=
  ('a' ≤ c && c ≤ 'z') || ('A' ≤ c && c ≤ 'Z') || ('0' ≤ c && c ≤ '9') || c = '_'

/-- Uppercasing of a single matched \w character by
String.prototype.toUpperCase: a-z map to A-Z, digits and underscore are
unchanged. -/
def jsUpperChar (c : Char) : Char :=
  if 'a' ≤ c && c ≤ 'z' then Char.ofNat (c.toNat - 32) else c

/-- Character-list core of `title.replace(/\b\w/g, c => c.toUpperCase())`:
uppercase each word character that starts a word, i.e. whose predecessor
is absent or not a word character.  The boolean argument records whether
the previous character was a word character. -/
def capitalizeChars (prevWord : Bool) : List Char → List Char
  | [] => []
  | c :: cs =>
    (if jsWordChar c && !prevWord then jsUpperChar c else c)
      :: capitalizeChars (jsWordChar c) cs

/-- capitalizeTitle (src/app/page.tsx lines 87-90): empty titles pass
through, otherwise the first letter of each word is uppercased. -/
def capitalizeTitle (title : String) : String :=
  if title = "" then "" else String.mk (capitalizeChars false title.data)

/-- The `topicTitle.replace(/ /g, '_')` step: every space (the literal
space character only) becomes an underscore. -/
def replaceSpaces (s : String) : String :=
  String.mk (s.data.map fun c => if c = ' ' then '_' else c)

/-- Filename computation of handleExportPdf (src/app/page.tsx lines
92-93): capitalize the topic, replace spaces with underscores, and fall
back to "Untitled" when the processed topic is the empty string (JS
`|| 'Untitled'`). -/
def exportFileName (topic : String) : String :=
  let topicTitle := capitalizeTitle topic
  let processed := replaceSpaces topicTitle
  "InsightForge_Report_" ++ (if processed = "" then "Untitled" else processed) ++ ".pdf"

/-- Follows the spec's words, for comparison with exportFileName: "the
fixed pattern InsightForge_Report_<Topic_With_Underscores>.pdf, derived
deterministically from the topic by capitalizing the first letter of
each word and replacing every space with an underscore". -/
def specFileName (topic : String) : String :=
  "InsightForge_Report_" ++ replaceSpaces (capitalizeTitle topic) ++ ".pdf"

/-- A4 page height in millimetres as used by every space check of
handleExportPdf (see the file header for the float-to-integer
justification). -/
def pageHeight : Nat := 297

/-- The page margin of handleExportPdf (src/app/page.tsx line 104). -/
def pageMargin : Nat := 20

/-- Body line height of handleExportPdf (src/app/page.tsx line 192). -/
def lineHeight : Nat := 8

/-- One recorded drawing action of the PDF export routine.  Positions
are the vertical cursor (millimetres from the top of the page) at which
the call was issued. -/
inductive PdfCmd where
  | titlePage (topicTitle : String)
  | pageBreak (newPageNum : Nat)
  | heading (title : String) (y : Nat)
  | sectionRule (y : Nat)
  | bodyLine (line : String) (y : Nat)
deriving DecidableEq

/-- The mutable state of handleExportPdf: the trace of drawing commands
issued so far (in order), the vertical cursor `y`, and `pageNum`. -/
structure PdfState where
  cmds : List PdfCmd
  y : Nat
  pageNum : Nat
deriving DecidableEq

/-- addPageWithHeaderFooter (src/app/page.tsx lines 118-123): start a
new page, bump the page number, reset the cursor to the top margin. -/
def addPageWithHeaderFooter (st : PdfState) : PdfState :=
  { cmds := st.cmds ++ [PdfCmd.pageBreak (st.pageNum + 1)],
    y := pageMargin,
    pageNum := st.pageNum + 1 }

/-- One iteration of the body-line loop (src/app/page.tsx lines
194-203): if the line would exceed the remaining space, start a new page
first; then draw the line at the cursor and advance by lineHeight. -/
def drawBodyLine (st : PdfState) (line : String) : PdfState :=
  let st := if st.y + lineHeight > pageHeight - pageMargin
            then addPageWithHeaderFooter st else st
  { st with cmds := st.cmds ++ [PdfCmd.bodyLine line st.y], y := st.y + lineHeight }

/-- One iteration of the section loop (src/app/page.tsx lines 163-207).
Empty sections are skipped (`if (report[sectionKey])`, JS falsiness of
the empty string).  Before the heading, if fewer than 25 mm remain above
the bottom margin, a new page is started.  The heading advances the
cursor by 7, the rule by 8; the wrapped body lines (computed by the
jsPDF splitTextToSize parameter `split`) follow, and the section ends
with a 10 mm gap. -/
def drawSection (split : String → List String) (st : PdfState)
    (sec : ReportSection) (content : String) : PdfState :=
  if content = "" then st
  else
    let st := if st.y + 25 > pageHeight - pageMargin
              then addPageWithHeaderFooter st else st
    let st := { st with cmds := st.cmds ++ [PdfCmd.heading (sectionTitle sec) st.y],
                        y := st.y + 7 }
    let st := { st with cmds := st.cmds ++ [PdfCmd.sectionRule st.y],
                        y := st.y + 8 }
    let st := (split content).foldl drawBodyLine st
    { st with y := st.y + 10 }

/-- The document-construction part of handleExportPdf (src/app/page.tsx
lines 97-207): one title page, then an unconditional
addPageWithHeaderFooter, then the six sections in the fixed order. -/
def handleExportPdf (split : String → List String) (topicTitle : String)
    (report : Report) : PdfState :=
  let st : PdfState := { cmds := [PdfCmd.titlePage topicTitle], y := pageMargin, pageNum := 1 }
  let st := addPageWithHeaderFooter st
  sectionOrder.foldl (fun st sec => drawSection split st sec (report.get sec)) st

/-- A toast notification as issued by useToast. -/
structure Toast where
  title : String
  description : String
  isDestructive : Bool
deriving DecidableEq

/-- The page state the export handler can observe or change: the
in-memory report and the toast queue. -/
structure AppState where
  report : Option Report
  toasts : List Toast
deriving DecidableEq

/-- The whole handleExportPdf event handler (src/app/page.tsx lines
81-216) as a state transition.  Document construction (jsPDF calls plus
pdf.save) may throw; its outcome is the `buildResult` parameter.  A
missing report returns early with an error toast; otherwise the
"Exporting PDF..." toast is shown, and the try/catch either completes
with a success toast or catches the exception and shows a destructive
"PDF Export Failed" toast carrying the exception message.  No branch
writes to the report state. -/
def handleExportPdfAction (st : AppState) (topic : String)
    (buildResult : Except String Unit) : AppState :=
  match st.report with
  | none =>
    { st with toasts := st.toasts ++
        [{ title := "Error", description := "No report data available to export.",
           isDestructive := true }] }
  | some _ =>
    let fileName := exportFileName topic
    let st : AppState := { st with toasts := st.toasts ++
        [{ title := "Exporting PDF...",
           description := "Please wait while your report is being prepared.",
           isDestructive := false }] }
    match buildResult with
    | Except.ok _ =>
      ({ st with toasts := st.toasts ++
          [{ title := "Export complete!",
             description := fileName ++ " has been downloaded.",
             isDestructive := false }] } : AppState)
    | Except.error msg =>
      ({ st with toasts := st.toasts ++
          [{ title := "PDF Export Failed", description := msg,
             isDestructive := true }] } : AppState)

/-- The mount effect of useLocalStorage (src/hooks/use-local-storage.ts
lines 11-25), as the value the hook exposes after mounting.
`readResult` is the outcome of `window.localStorage.getItem(key)`
(`Except.error` when getItem itself throws, `Except.ok none` when the
key is absent); `parse` is the outcome of `JSON.parse` on a string.  The
initial value is kept unless a present, non-empty (JS truthiness of the
item string) entry parses successfully, and no exception escapes: the
catch block only logs a warning. -/
def useLocalStorageMountValue {T : Type} (initialValue : T)
    (readResult : Except String (Option String))
    (parse : String → Except String T) : T :=
  match readResult with
  | Except.error _ => initialValue
  | Except.ok none => initialValue
  | Except.ok (some item) =>
    if item = "" then initialValue
    else
      match parse item with
      | Except.ok v => v
      | Except.error _ => initialValue

/-- The section headings drawn by a command trace, in drawing order. -/
def headingTitles (cmds : List PdfCmd) : List String :=
  cmds.filterMap fun c =>
    match c with
    | PdfCmd.heading t _ => some t
    | _ => none

/-- A drawing command respects the bottom margin: headings leave at
least the 25 mm threshold above it, body lines fit entirely above it. -/
def cmdFits : PdfCmd → Bool
  | PdfCmd.heading _ y => decide (y + 25 ≤ pageHeight - pageMargin)
  | PdfCmd.bodyLine _ y => decide (y + lineHeight ≤ pageHeight - pageMargin)
  | _ => true

/-- C2: history append is idempotent with respect to duplicates — if the
topic is already present anywhere in the list (exact string match), a
successful generation leaves the history list unchanged, and in
particular the duplicate count of the topic does not increase. -/
theorem appendTopic_duplicate_unchanged (history : List String) (topic : String)
    (h : topic ∈ history) :
    appendTopic history topic = history ∧
    (appendTopic history topic).count topic = history.count topic := by
  have hc : history.contains topic = true := List.elem_eq_true_of_mem h
  refine ⟨?_, ?_⟩ <;> simp [appendTopic, hc, h]

theorem appendTopic_duplicate_unchanged_witness :
    appendTopic ["Quantum Computing"] "Quantum Computing" = ["Quantum Computing"] ∧
    (appendTopic ["Quantum Computing"] "Quantum Computing").count "Quantum Computing"
      = (["Quantum Computing"] : List String).count "Quantum Computing" :=
  appendTopic_duplicate_unchanged ["Quantum Computing"] "Quantum Computing" (by decide)

/-- C3 counterexample: the code prepends a new topic
(`setHistory([topic, ...history])`, src/app/page.tsx line 60); it does
not append at the end, and previously stored entries do not keep their
positions — here "solar" moves from index 0 to index 1. -/
theorem appendTopic_prepends_not_appends :
    appendTopic ["solar"] "wind" = ["wind", "solar"] ∧
    appendTopic ["solar"] "wind" ≠ ["solar", "wind"] ∧
    (appendTopic ["solar"] "wind")[0]? ≠ some "solar" := by
  refine ⟨?_, ?_, ?_⟩ <;> decide

/-- C3 amended: on every successful generation of a topic not already in
history, the new history list is the old list with the new topic added
at the front (head), and every previously stored entry is kept in order,
shifted one position towards the tail. -/
theorem appendTopic_new_topic_prepended (history : List String) (topic : String)
    (h : topic ∉ history) :
    appendTopic history topic = topic :: history ∧
    ∀ i : Nat, (appendTopic history topic)[i + 1]? = history[i]? := by
  have hc : history.contains topic = false := by
    simp [List.contains]
    exact h
  constructor
  · simp [appendTopic, hc, h]
  · intro i
    simp [appendTopic, hc, h]

theorem appendTopic_new_topic_prepended_witness :
    appendTopic ["solar"] "wind" = "wind" :: ["solar"] ∧
    ∀ i : Nat, (appendTopic ["solar"] "wind")[i + 1]? = (["solar"] : List String)[i]? :=
  appendTopic_new_topic_prepended ["solar"] "wind" (by decide)

/-- C4: saving an in-place edit commits the edit buffer into the edited
section and leaves the five other sections byte-identical to their
values before the edit. -/
theorem handleSaveClick_frame (st : EditState) (sec : ReportSection)
    (h : st.editingSection = some sec) :
    ((handleSaveClick st).1).editableReport.get sec = st.editContent ∧
    ∀ s', s' ≠ sec →
      ((handleSaveClick st).1).editableReport.get s' = st.editableReport.get s' := by
  constructor
  · simp only [handleSaveClick, h]
    cases sec <;> simp [Report.get, Report.set]
  · intro s' hne
    simp only [handleSaveClick, h]
    cases sec <;> cases s' <;> simp_all [Report.get, Report.set]

theorem handleSaveClick_frame_witness :
    ((handleSaveClick
        { editableReport := Report.mk "i" "h" "b" "c" "t" "f",
          editingSection := some ReportSection.history,
          editContent := "edited" }).1).editableReport.get ReportSection.history
      = "edited" ∧
    ∀ s', s' ≠ ReportSection.history →
      ((handleSaveClick
          { editableReport := Report.mk "i" "h" "b" "c" "t" "f",
            editingSection := some ReportSection.history,
            editContent := "edited" }).1).editableReport.get s'
        = (Report.mk "i" "h" "b" "c" "t" "f").get s' :=
  handleSaveClick_frame
    { editableReport := Report.mk "i" "h" "b" "c" "t" "f",
      editingSection := some ReportSection.history,
      editContent := "edited" }
    ReportSection.history rfl

/-- Buffer changes never touch the in-memory report. -/
theorem applyEdits_editableReport (values : List String) (st : EditState) :
    (applyEdits st values).editableReport = st.editableReport := by
  induction values generalizing st with
  | nil => rfl
  | cons v vs ih =>
    simp only [applyEdits, List.foldl] at *
    exact ih (setEditContent st v)

/-- C5: canceling an in-place edit — after any sequence of edit-buffer
changes — leaves the report byte-identical to its value before the edit
began; only the editing flag is cleared (and the buffer abandoned). -/
theorem handleCancelClick_frame (st : EditState) (sec : ReportSection)
    (buffers : List String) :
    (handleCancelClick (applyEdits (handleEditClick st sec) buffers)).editableReport
      = st.editableReport ∧
    (handleCancelClick (applyEdits (handleEditClick st sec) buffers)).editingSection
      = none := by
  refine ⟨?_, rfl⟩
  rw [show (handleCancelClick (applyEdits (handleEditClick st sec) buffers)).editableReport
        = (applyEdits (handleEditClick st sec) buffers).editableReport from rfl]
  rw [applyEdits_editableReport]
  rfl

/-- Capitalization rewrites characters in place, so it preserves length. -/
theorem capitalizeChars_length (b : Bool) (l : List Char) :
    (capitalizeChars b l).length = l.length := by
  induction l generalizing b with
  | nil => rfl
  | cons c cs ih => simp [capitalizeChars, ih]

/-- C8 counterexample: for the empty topic the code falls back to the
literal "Untitled" (`|| 'Untitled'`, src/app/page.tsx line 93), so the
exported name is not the one derived by capitalizing and replacing
spaces, which would be "InsightForge_Report_.pdf". -/
theorem exportFileName_empty_topic_untitled :
    exportFileName "" = "InsightForge_Report_Untitled.pdf" ∧
    specFileName "" = "InsightForge_Report_.pdf" ∧
    exportFileName "" ≠ specFileName "" := by
  refine ⟨?_, ?_, ?_⟩ <;> decide

/-- C8 amended: for every nonempty topic string, the exported file's
name is exactly InsightForge_Report_<Topic_With_Underscores>.pdf,
derived deterministically from the topic by capitalizing the first
letter of each word and then replacing every space with an underscore;
only the empty topic falls back to "Untitled". -/
theorem exportFileName_matches_pattern (topic : String) (h : topic ≠ "") :
    exportFileName topic = specFileName topic := by
  have hdata : topic.data ≠ [] := by
    intro hd
    exact h (String.ext (by simp [hd]))
  have hne : replaceSpaces (capitalizeTitle topic) ≠ "" := by
    intro he
    have hd : (replaceSpaces (capitalizeTitle topic)).data = [] := by rw [he]
    have hd2 : ((capitalizeTitle topic).data.map
        fun c => if c = ' ' then '_' else c) = [] := hd
    have hlen := congrArg List.length hd2
    rw [List.length_map] at hlen
    have hcap : (capitalizeTitle topic).data = capitalizeChars false topic.data := by
      simp [capitalizeTitle, h]
    rw [hcap, capitalizeChars_length] at hlen
    exact hdata (List.length_eq_zero.mp hlen)
  simp only [exportFileName, specFileName, if_neg hne]

theorem exportFileName_matches_pattern_witness :
    exportFileName "quantum computing" = specFileName "quantum computing" :=
  exportFileName_matches_pattern "quantum computing" (by decide)

/-- C9: the export handler never writes the in-memory report — whatever
the outcome of document construction, including an exception — and a
thrown exception is caught and surfaced as a destructive
"PDF Export Failed" toast carrying the exception's message. -/
theorem handleExportPdfAction_atomic (st : AppState) (topic : String)
    (res : Except String Unit) (msg : String) (r : Report)
    (h : st.report = some r) :
    (handleExportPdfAction st topic res).report = st.report ∧
    Toast.mk "PDF Export Failed" msg true ∈
      (handleExportPdfAction st topic (Except.error msg)).toasts := by
  constructor
  · cases hr : st.report <;> cases res <;> simp [handleExportPdfAction, hr]
  · simp [handleExportPdfAction, h]

theorem handleExportPdfAction_atomic_witness :
    (handleExportPdfAction
        { report := some (Report.mk "i" "h" "b" "c" "t" "f"), toasts := [] }
        "ai" (Except.ok ())).report
      = ({ report := some (Report.mk "i" "h" "b" "c" "t" "f"), toasts := [] } : AppState).report ∧
    Toast.mk "PDF Export Failed" "boom" true ∈
      (handleExportPdfAction
          { report := some (Report.mk "i" "h" "b" "c" "t" "f"), toasts := [] }
          "ai" (Except.error "boom")).toasts :=
  handleExportPdfAction_atomic
    { report := some (Report.mk "i" "h" "b" "c" "t" "f"), toasts := [] }
    "ai" (Except.ok ()) "boom" (Report.mk "i" "h" "b" "c" "t" "f") rfl

/-- C10: the local-storage hook never propagates a read or parse
failure: a throwing getItem, an absent entry, or a failing JSON.parse
all leave the exposed value equal to the supplied initial value, and the
initial value is replaced only when a present entry parses
successfully. -/
theorem useLocalStorage_initial_on_failure {T : Type} (initialValue : T)
    (parse : String → Except String T) (err : String) (item : String)
    (readResult : Except String (Option String)) :
    useLocalStorageMountValue initialValue (Except.error err) parse = initialValue ∧
    useLocalStorageMountValue initialValue (Except.ok none) parse = initialValue ∧
    (parse item = Except.error err →
      useLocalStorageMountValue initialValue (Except.ok (some item)) parse
        = initialValue) ∧
    (useLocalStorageMountValue initialValue readResult parse ≠ initialValue →
      ∃ s, readResult = Except.ok (some s) ∧
        parse s = Except.ok (useLocalStorageMountValue initialValue readResult parse)) := by
  refine ⟨rfl, rfl, ?_, ?_⟩
  · intro hp
    by_cases he : item = "" <;> simp [useLocalStorageMountValue, he, hp]
  · intro hne
    match hr : readResult with
    | Except.error e => exact absurd (by simp [useLocalStorageMountValue]) hne
    | Except.ok none => exact absurd (by simp [useLocalStorageMountValue]) hne
    | Except.ok (some s) =>
      refine ⟨s, rfl, ?_⟩
      by_cases he : s = ""
      · exact absurd (by simp [useLocalStorageMountValue, he]) hne
      · match hp : parse s with
        | Except.ok v => simp [useLocalStorageMountValue, he, hp]
        | Except.error e =>
          exact absurd (by simp [useLocalStorageMountValue, he, hp]) hne

theorem useLocalStorage_initial_on_failure_witness :
    useLocalStorageMountValue ([] : List String) (Except.error "getItem threw")
        (fun _ => Except.ok ["x"]) = [] ∧
    useLocalStorageMountValue ([] : List String) (Except.ok none)
        (fun _ => Except.ok ["x"]) = [] ∧
    useLocalStorageMountValue ([] : List String) (Except.ok (some "not json"))
        (fun _ => Except.error "parse threw") = [] ∧
    ∃ s, (Except.ok (some "[\x22a\x22]") : Except String (Option String))
          = Except.ok (some s) ∧
        (fun (_ : String) => (Except.ok ["a"] : Except String (List String))) s
          = Except.ok (useLocalStorageMountValue ([] : List String)
              (Except.ok (some "[\x22a\x22]")) (fun _ => Except.ok ["a"])) :=
  ⟨(useLocalStorage_initial_on_failure [] (fun _ => Except.ok ["x"]) "e" "i"
      (Except.error "getItem threw")).1,
   (useLocalStorage_initial_on_failure [] (fun _ => Except.ok ["x"]) "e" "i"
      (Except.ok none)).2.1,
   (useLocalStorage_initial_on_failure [] (fun _ => Except.error "parse threw")
      "parse threw" "not json" (Except.ok none)).2.2.1 rfl,
   (useLocalStorage_initial_on_failure [] (fun _ => Except.ok ["a"]) "e" "i"
      (Except.ok (some "[\x22a\x22]"))).2.2.2 (by decide)⟩

/-- A successful string-field extraction means the key was present and
held a string. -/
theorem getStr_some_lookup (fields : List (String × JsonValue)) (key : String)
    (s : String) (h : getStr fields key = some s) :
    fields.lookup key = some (JsonValue.str s) := by
  unfold getStr at h
  split at h
  · next heq => rw [heq]; injection h with h; rw [h]
  · exact absurd h (by simp)

/-- C1: whenever the request handler returns a report rather than an
error, the report consists of exactly the six fixed string fields
introduction, history, benefits, challenges, currentTrends and
futureScope — never fewer (schema validation demanded each of the six
as a string in the model output) and never others (the parsed object is
built from exactly these six keys; unknown keys are stripped). -/
theorem handleGenerateReport_six_fields (modelOutput : Option JsonValue)
    (out : Report) (h : handleGenerateReport modelOutput = Except.ok out) :
    out.toFields.map Prod.fst = reportFieldNames ∧
    ∃ inner : List (String × JsonValue),
      parseReportObj inner = some out ∧
      ∀ name ∈ reportFieldNames, ∃ s : String,
        inner.lookup name = some (JsonValue.str s) := by
  have hflow : generateReportFlow modelOutput = Except.ok out := by
    cases hg : generateReportFlow modelOutput with
    | ok r =>
      simp only [handleGenerateReport, hg] at h
      injection h with h
      rw [h]
    | error e => simp [handleGenerateReport, hg] at h
  match modelOutput with
  | none => exact absurd hflow (by simp [generateReportFlow])
  | some j =>
    have hparse : parseGenerateReportOutput j = some out := by
      cases hpo : parseGenerateReportOutput j with
      | some r =>
        simp only [generateReportFlow, hpo] at hflow
        injection hflow with hflow
        rw [hflow]
      | none => simp [generateReportFlow, hpo] at hflow
    refine ⟨rfl, ?_⟩
    match j with
    | JsonValue.obj fields =>
      cases hrep : fields.lookup "report" with
      | none => simp [parseGenerateReportOutput, hrep] at hparse
      | some v =>
        match v with
        | JsonValue.obj inner =>
          simp only [parseGenerateReportOutput, hrep] at hparse
          refine ⟨inner, hparse, ?_⟩
          rcases hi : getStr inner "introduction" with _ | i
          · simp [parseReportObj, hi] at hparse
          rcases hh : getStr inner "history" with _ | hs
          · simp [parseReportObj, hi, hh] at hparse
          rcases hb : getStr inner "benefits" with _ | b
          · simp [parseReportObj, hi, hh, hb] at hparse
          rcases hc : getStr inner "challenges" with _ | c
          · simp [parseReportObj, hi, hh, hb, hc] at hparse
          rcases ht : getStr inner "currentTrends" with _ | t
          · simp [parseReportObj, hi, hh, hb, hc, ht] at hparse
          rcases hf : getStr inner "futureScope" with _ | f
          · simp [parseReportObj, hi, hh, hb, hc, ht, hf] at hparse
          intro name hname
          simp only [reportFieldNames, List.mem_cons, List.mem_singleton,
            List.not_mem_nil, or_false] at hname
          rcases hname with rfl | rfl | rfl | rfl | rfl | rfl
          · exact ⟨i, getStr_some_lookup inner _ i hi⟩
          · exact ⟨hs, getStr_some_lookup inner _ hs hh⟩
          · exact ⟨b, getStr_some_lookup inner _ b hb⟩
          · exact ⟨c, getStr_some_lookup inner _ c hc⟩
          · exact ⟨t, getStr_some_lookup inner _ t ht⟩
          · exact ⟨f, getStr_some_lookup inner _ f hf⟩
        | JsonValue.str s => simp [parseGenerateReportOutput, hrep] at hparse
        | JsonValue.num n => simp [parseGenerateReportOutput, hrep] at hparse
        | JsonValue.boolVal b => simp [parseGenerateReportOutput, hrep] at hparse
        | JsonValue.nullVal => simp [parseGenerateReportOutput, hrep] at hparse
        | JsonValue.arr xs => simp [parseGenerateReportOutput, hrep] at hparse
    | JsonValue.str s => exact absurd hparse (by simp [parseGenerateReportOutput])
    | JsonValue.num n => exact absurd hparse (by simp [parseGenerateReportOutput])
    | JsonValue.boolVal b => exact absurd hparse (by simp [parseGenerateReportOutput])
    | JsonValue.nullVal => exact absurd hparse (by simp [parseGenerateReportOutput])
    | JsonValue.arr xs => exact absurd hparse (by simp [parseGenerateReportOutput])

theorem handleGenerateReport_six_fields_witness :
    (Report.mk "a" "b" "c" "d" "e" "f").toFields.map Prod.fst = reportFieldNames ∧
    ∃ inner : List (String × JsonValue),
      parseReportObj inner = some (Report.mk "a" "b" "c" "d" "e" "f") ∧
      ∀ name ∈ reportFieldNames, ∃ s : String,
        inner.lookup name = some (JsonValue.str s) :=
  handleGenerateReport_six_fields
    (some (JsonValue.obj [("report", JsonValue.obj
      [("introduction", JsonValue.str "a"), ("history", JsonValue.str "b"),
       ("benefits", JsonValue.str "c"), ("challenges", JsonValue.str "d"),
       ("currentTrends", JsonValue.str "e"), ("futureScope", JsonValue.str "f"),
       ("extraField", JsonValue.num 3)])]))
    (Report.mk "a" "b" "c" "d" "e" "f") rfl

/-- Drawing a body line keeps every command already in the trace. -/
theorem drawBodyLine_mem (st : PdfState) (line : String) (c : PdfCmd)
    (h : c ∈ st.cmds) : c ∈ (drawBodyLine st line).cmds := by
  unfold drawBodyLine
  by_cases hc : st.y + lineHeight > pageHeight - pageMargin <;>
    simp [hc, addPageWithHeaderFooter, h]

/-- The body-line loop keeps every command already in the trace. -/
theorem foldl_drawBodyLine_mem (lines : List String) (st : PdfState) (c : PdfCmd)
    (h : c ∈ st.cmds) : c ∈ (lines.foldl drawBodyLine st).cmds := by
  induction lines generalizing st with
  | nil => exact h
  | cons l ls ih => exact ih (drawBodyLine st l) (drawBodyLine_mem st l c h)

/-- Drawing a section keeps every command already in the trace. -/
theorem drawSection_mem (split : String → List String) (st : PdfState)
    (sec : ReportSection) (content : String) (c : PdfCmd)
    (h : c ∈ st.cmds) : c ∈ (drawSection split st sec content).cmds := by
  unfold drawSection
  by_cases he : content = ""
  · simpa [he] using h
  · by_cases hc : st.y + 25 > pageHeight - pageMargin <;>
      · simp only [he, hc, ite_true, ite_false]
        apply foldl_drawBodyLine_mem
        simp [addPageWithHeaderFooter, h]

/-- The section loop keeps every command already in the trace. -/
theorem foldl_drawSection_mem (split : String → List String) (report : Report)
    (secs : List ReportSection) (st : PdfState) (c : PdfCmd) (h : c ∈ st.cmds) :
    c ∈ (secs.foldl (fun st sec => drawSection split st sec (report.get sec)) st).cmds := by
  induction secs generalizing st with
  | nil => exact h
  | cons s ss ih => exact ih _ (drawSection_mem split st s (report.get s) c h)

/-- Drawing a body line never decreases the page number. -/
theorem drawBodyLine_pageNum (st : PdfState) (line : String) :
    st.pageNum ≤ (drawBodyLine st line).pageNum := by
  unfold drawBodyLine
  by_cases hc : st.y + lineHeight > pageHeight - pageMargin <;>
    simp [hc, addPageWithHeaderFooter]

/-- The body-line loop never decreases the page number. -/
theorem foldl_drawBodyLine_pageNum (lines : List String) (st : PdfState) :
    st.pageNum ≤ (lines.foldl drawBodyLine st).pageNum := by
  induction lines generalizing st with
  | nil => exact Nat.le_refl _
  | cons l ls ih =>
    exact Nat.le_trans (drawBodyLine_pageNum st l) (ih (drawBodyLine st l))

/-- Drawing a section never decreases the page number. -/
theorem drawSection_pageNum (split : String → List String) (st : PdfState)
    (sec : ReportSection) (content : String) :
    st.pageNum ≤ (drawSection split st sec content).pageNum := by
  unfold drawSection
  by_cases he : content = ""
  · simp [he]
  · by_cases hc : st.y + 25 > pageHeight - pageMargin <;>
      · simp only [he, hc, ite_true, ite_false]
        refine Nat.le_trans ?_ (foldl_drawBodyLine_pageNum (split content) _)
        simp [addPageWithHeaderFooter]

/-- The section loop never decreases the page number. -/
theorem foldl_drawSection_pageNum (split : String → List String) (report : Report)
    (secs : List ReportSection) (st : PdfState) :
    st.pageNum ≤ (secs.foldl (fun st sec => drawSection split st sec (report.get sec)) st).pageNum := by
  induction secs generalizing st with
  | nil => exact Nat.le_refl _
  | cons s ss ih =>
    exact Nat.le_trans (drawSection_pageNum split st s (report.get s)) (ih _)

/-- Body lines and page breaks draw no heading. -/
theorem drawBodyLine_headings (st : PdfState) (line : String) :
    headingTitles (drawBodyLine st line).cmds = headingTitles st.cmds := by
  unfold drawBodyLine
  by_cases hc : st.y + lineHeight > pageHeight - pageMargin <;>
    simp [hc, addPageWithHeaderFooter, headingTitles]

/-- The body-line loop draws no heading. -/
theorem foldl_drawBodyLine_headings (lines : List String) (st : PdfState) :
    headingTitles (lines.foldl drawBodyLine st).cmds = headingTitles st.cmds := by
  induction lines generalizing st with
  | nil => rfl
  | cons l ls ih => rw [List.foldl_cons, ih, drawBodyLine_headings]

/-- Drawing a section appends exactly its heading to the heading trace —
nothing when the section is empty and skipped. -/
theorem drawSection_headings (split : String → List String) (st : PdfState)
    (sec : ReportSection) (content : String) :
    headingTitles (drawSection split st sec content).cmds =
      headingTitles st.cmds ++ (if content = "" then [] else [sectionTitle sec]) := by
  unfold drawSection
  by_cases he : content = ""
  · simp [he]
  · by_cases hc : st.y + 25 > pageHeight - pageMargin <;>
      · simp only [he, hc, ite_true, ite_false]
        rw [foldl_drawBodyLine_headings]
        simp [addPageWithHeaderFooter, headingTitles]

/-- The section loop appends exactly the headings of the non-empty
sections, in traversal order. -/
theorem foldl_drawSection_headings (split : String → List String) (report : Report)
    (secs : List ReportSection) (st : PdfState) :
    headingTitles (secs.foldl (fun st sec => drawSection split st sec (report.get sec)) st).cmds =
      headingTitles st.cmds ++
        (secs.filter (fun sec => report.get sec != "")).map sectionTitle := by
  induction secs generalizing st with
  | nil => simp
  | cons s ss ih =>
    rw [List.foldl_cons, ih]
    rw [drawSection_headings]
    by_cases he : report.get s = "" <;> simp [he, List.filter_cons]

/-- Drawing a body line keeps every drawn command within the bottom
margin: the freshly drawn line either fits in the remaining space or is
placed at the top margin of a fresh page. -/
theorem drawBodyLine_fits (st : PdfState) (line : String)
    (h : st.cmds.all cmdFits = true) :
    (drawBodyLine st line).cmds.all cmdFits = true := by
  unfold drawBodyLine
  by_cases hc : st.y + lineHeight > pageHeight - pageMargin
  · simp only [hc, ite_true, addPageWithHeaderFooter]
    simp [List.all_append, h, cmdFits, pageMargin, pageHeight, lineHeight]
  · simp only [hc, ite_false]
    simp only [List.all_append, h, Bool.true_and, List.all_cons, List.all_nil,
      Bool.and_true, cmdFits, decide_eq_true_eq]
    omega

/-- The body-line loop keeps every drawn command within the bottom
margin. -/
theorem foldl_drawBodyLine_fits (lines : List String) (st : PdfState)
    (h : st.cmds.all cmdFits = true) :
    (lines.foldl drawBodyLine st).cmds.all cmdFits = true := by
  induction lines generalizing st with
  | nil => exact h
  | cons l ls ih => exact ih (drawBodyLine st l) (drawBodyLine_fits st l h)

/-- Drawing a section keeps every drawn command within the bottom
margin: the heading is drawn only where at least 25 mm remain, else on a
fresh page. -/
theorem drawSection_fits (split : String → List String) (st : PdfState)
    (sec : ReportSection) (content : String)
    (h : st.cmds.all cmdFits = true) :
    (drawSection split st sec content).cmds.all cmdFits = true := by
  unfold drawSection
  by_cases he : content = ""
  · simpa [he] using h
  · by_cases hc : st.y + 25 > pageHeight - pageMargin
    · simp only [he, hc, ite_true, ite_false]
      apply foldl_drawBodyLine_fits
      simp [addPageWithHeaderFooter, List.all_append, h, cmdFits, pageMargin, pageHeight]
    · simp only [he, hc, ite_true, ite_false]
      apply foldl_drawBodyLine_fits
      simp only [List.all_append, h, Bool.true_and, List.all_cons, List.all_nil,
        Bool.and_true, cmdFits, decide_eq_true_eq]
      omega

/-- The section loop keeps every drawn command within the bottom
margin. -/
theorem foldl_drawSection_fits (split : String → List String) (report : Report)
    (secs : List ReportSection) (st : PdfState)
    (h : st.cmds.all cmdFits = true) :
    (secs.foldl (fun st sec => drawSection split st sec (report.get sec)) st).cmds.all cmdFits = true := by
  induction secs generalizing st with
  | nil => exact h
  | cons s ss ih => exact ih _ (drawSection_fits split st s (report.get s) h)

/-- The body-line loop preserves any prefix of the command trace. -/
theorem foldl_drawBodyLine_cmds_prefix (lines : List String) (st : PdfState)
    (pre : List PdfCmd) (h : ∃ mid, st.cmds = pre ++ mid) :
    ∃ mid, (lines.foldl drawBodyLine st).cmds = pre ++ mid := by
  induction lines generalizing st with
  | nil => exact h
  | cons l ls ih =>
    refine ih (drawBodyLine st l) ?_
    obtain ⟨mid, hm⟩ := h
    by_cases hc : st.y + lineHeight > pageHeight - pageMargin
    · exact ⟨mid ++ [PdfCmd.pageBreak (st.pageNum + 1), PdfCmd.bodyLine l pageMargin],
        by simp [drawBodyLine, hc, addPageWithHeaderFooter, hm]⟩
    · exact ⟨mid ++ [PdfCmd.bodyLine l st.y], by simp [drawBodyLine, hc, hm]⟩

/-- C6: whatever the report's contents, the export yields the title page
followed by at least one content page: in particular a report with all
six sections non-empty has a content page beyond the title page, and a
report with all six sections empty still yields the title page. -/
theorem handleExportPdf_title_and_content (split : String → List String)
    (topicTitle : String) (report : Report) :
    ((∀ sec ∈ sectionOrder, report.get sec ≠ "") →
      PdfCmd.titlePage topicTitle ∈ (handleExportPdf split topicTitle report).cmds ∧
      PdfCmd.pageBreak 2 ∈ (handleExportPdf split topicTitle report).cmds ∧
      2 ≤ (handleExportPdf split topicTitle report).pageNum) ∧
    ((∀ sec ∈ sectionOrder, report.get sec = "") →
      PdfCmd.titlePage topicTitle ∈ (handleExportPdf split topicTitle report).cmds) := by
  have htitle : PdfCmd.titlePage topicTitle ∈ (handleExportPdf split topicTitle report).cmds := by
    unfold handleExportPdf
    apply foldl_drawSection_mem
    simp [addPageWithHeaderFooter]
  have hbreak : PdfCmd.pageBreak 2 ∈ (handleExportPdf split topicTitle report).cmds := by
    unfold handleExportPdf
    apply foldl_drawSection_mem
    simp [addPageWithHeaderFooter]
  have hpage : 2 ≤ (handleExportPdf split topicTitle report).pageNum := by
    unfold handleExportPdf
    refine Nat.le_trans ?_ (foldl_drawSection_pageNum split report sectionOrder _)
    simp [addPageWithHeaderFooter]
  exact ⟨fun _ => ⟨htitle, hbreak, hpage⟩, fun _ => htitle⟩

theorem handleExportPdf_title_and_content_witness :
    (PdfCmd.titlePage "Ai" ∈
        (handleExportPdf (fun s => [s]) "Ai" (Report.mk "a" "b" "c" "d" "e" "f")).cmds ∧
      PdfCmd.pageBreak 2 ∈
        (handleExportPdf (fun s => [s]) "Ai" (Report.mk "a" "b" "c" "d" "e" "f")).cmds ∧
      2 ≤ (handleExportPdf (fun s => [s]) "Ai" (Report.mk "a" "b" "c" "d" "e" "f")).pageNum) ∧
    PdfCmd.titlePage "Ai" ∈
      (handleExportPdf (fun s => [s]) "Ai" (Report.mk "" "" "" "" "" "")).cmds :=
  ⟨(handleExportPdf_title_and_content (fun s => [s]) "Ai"
      (Report.mk "a" "b" "c" "d" "e" "f")).1 (by decide),
   (handleExportPdf_title_and_content (fun s => [s]) "Ai"
      (Report.mk "" "" "" "" "" "")).2 (by decide)⟩

/-- C7: the export's pagination policy.  (1) Headings are emitted in the
fixed order introduction, history, benefits, challenges, currentTrends,
futureScope, skipping exactly the empty sections.  (2) Every drawn
heading leaves at least the 25 mm threshold above the bottom margin and
every drawn body line fits above it.  (3) A body line that would exceed
the remaining space starts a new page and is drawn at the top margin of
that page, and one that fits is drawn in place.  (4) A section heading
preceded by less remaining space than the threshold starts a new page
and is drawn at its top margin; otherwise it is drawn in place. -/
theorem handleExportPdf_pagination (split : String → List String)
    (topicTitle : String) (report : Report) :
    headingTitles (handleExportPdf split topicTitle report).cmds =
      (sectionOrder.filter (fun sec => report.get sec != "")).map sectionTitle ∧
    (handleExportPdf split topicTitle report).cmds.all cmdFits = true ∧
    (∀ (st : PdfState) (line : String),
      (st.y + lineHeight > pageHeight - pageMargin →
        (drawBodyLine st line).cmds =
          st.cmds ++ [PdfCmd.pageBreak (st.pageNum + 1), PdfCmd.bodyLine line pageMargin]) ∧
      (st.y + lineHeight ≤ pageHeight - pageMargin →
        (drawBodyLine st line).cmds = st.cmds ++ [PdfCmd.bodyLine line st.y])) ∧
    (∀ (st : PdfState) (sec : ReportSection) (content : String), content ≠ "" →
      (st.y + 25 > pageHeight - pageMargin →
        ∃ rest, (drawSection split st sec content).cmds =
          st.cmds ++ [PdfCmd.pageBreak (st.pageNum + 1),
            PdfCmd.heading (sectionTitle sec) pageMargin] ++ rest) ∧
      (st.y + 25 ≤ pageHeight - pageMargin →
        ∃ rest, (drawSection split st sec content).cmds =
          st.cmds ++ [PdfCmd.heading (sectionTitle sec) st.y] ++ rest)) := by
  refine ⟨?_, ?_, ?_, ?_⟩
  · unfold handleExportPdf
    rw [foldl_drawSection_headings]
    simp [addPageWithHeaderFooter, headingTitles]
  · unfold handleExportPdf
    apply foldl_drawSection_fits
    simp [addPageWithHeaderFooter, List.all_append, cmdFits]
  · intro st line
    constructor
    · intro hc
      simp [drawBodyLine, hc, addPageWithHeaderFooter]
    · intro hc
      have hc' : ¬(st.y + lineHeight > pageHeight - pageMargin) := by omega
      simp [drawBodyLine, hc']
  · intro st sec content he
    constructor
    · intro hc
      unfold drawSection
      simp only [he, ite_false, hc, ite_true, if_pos, if_neg]
      apply foldl_drawBodyLine_cmds_prefix
      exact ⟨[PdfCmd.sectionRule (pageMargin + 7)],
        by simp [addPageWithHeaderFooter, hc]⟩
    · intro hc
      have hc' : ¬(st.y + 25 > pageHeight - pageMargin) := by omega
      unfold drawSection
      simp only [he, ite_false, hc', ite_true, if_pos, if_neg]
      apply foldl_drawBodyLine_cmds_prefix
      exact ⟨[PdfCmd.sectionRule (st.y + 7)], by simp [hc']⟩

theorem handleExportPdf_pagination_witness :
    headingTitles (handleExportPdf (fun s => [s]) "Ai" (Report.mk "a" "" "c" "" "e" "f")).cmds =
      (sectionOrder.filter
        (fun sec => (Report.mk "a" "" "c" "" "e" "f").get sec != "")).map sectionTitle ∧
    (handleExportPdf (fun s => [s]) "Ai" (Report.mk "a" "" "c" "" "e" "f")).cmds.all cmdFits = true ∧
    (drawBodyLine { cmds := [], y := 270, pageNum := 1 } "L").cmds =
      [] ++ [PdfCmd.pageBreak 2, PdfCmd.bodyLine "L" pageMargin] ∧
    (drawBodyLine { cmds := [], y := 40, pageNum := 1 } "L").cmds =
      [] ++ [PdfCmd.bodyLine "L" 40] ∧
    (∃ rest, (drawSection (fun s => [s]) { cmds := [], y := 270, pageNum := 1 }
        ReportSection.benefits "c").cmds =
      [] ++ [PdfCmd.pageBreak 2, PdfCmd.heading (sectionTitle ReportSection.benefits) pageMargin]
        ++ rest) ∧
    (∃ rest, (drawSection (fun s => [s]) { cmds := [], y := 40, pageNum := 1 }
        ReportSection.benefits "c").cmds =
      [] ++ [PdfCmd.heading (sectionTitle ReportSection.benefits) 40] ++ rest) :=
  ⟨(handleExportPdf_pagination (fun s => [s]) "Ai" (Report.mk "a" "" "c" "" "e" "f")).1,
   (handleExportPdf_pagination (fun s => [s]) "Ai" (Report.mk "a" "" "c" "" "e" "f")).2.1,
   ((handleExportPdf_pagination (fun s => [s]) "Ai" (Report.mk "a" "" "c" "" "e" "f")).2.2.1
      { cmds := [], y := 270, pageNum := 1 } "L").1 (by decide),
   ((handleExportPdf_pagination (fun s => [s]) "Ai" (Report.mk "a" "" "c" "" "e" "f")).2.2.1
      { cmds := [], y := 40, pageNum := 1 } "L").2 (by decide),
   ((handleExportPdf_pagination (fun s => [s]) "Ai" (Report.mk "a" "" "c" "" "e" "f")).2.2.2
      { cmds := [], y := 270, pageNum := 1 } ReportSection.benefits "c" (by decide)).1 (by decide),
   ((handleExportPdf_pagination (fun s => [s]) "Ai" (Report.mk "a" "" "c" "" "e" "f")).2.2.2
      { cmds := [], y := 40, pageNum := 1 } ReportSection.benefits "c" (by decide)).2 (by decide)⟩

end InsightForge
